import Mathlib

/-!
# Source configuration of the SBOM tool: author parsing, digest normalisation,
image source checks

Shallow embedding of `cmd/syft/internal/options/source.go` and of the `Author`
record of `syft/source/description.go`.

Conventions of the embedding.

* A Go `string` is a Lean `String`.  Equality is exact (case-sensitive) equality;
  the order `<` is the lexicographic order on the characters, which is the order
  Go's `<` gives on UTF-8 text.
* A Go `error` is an `Option String`: `none` is `nil`, `some msg` is an error whose
  `Error()` text is `msg`.  A function returning `(v, error)` returns a pair.
* A Go slice is a `List`; the `nil` slice is `[]`.
* A `for ... range` loop over a slice is a recursive function on the list that
  carries the variables the loop body updates.
* The process-wide read limit is a field of an explicit state `Process`, which the
  functions of the image source take and return.  A `uint64` is a `Nat` below
  2^64 and an `int64` an `Int`; the conversion between them is `int64`.
* The size parser `humanize.ParseBytes` is an argument of `imageSource.PostLoad`.
-/

namespace Syft

/-! ## Library functions used by the source -/

namespace strings

/-- Segments of a character sequence cut at every occurrence of `sep`:
`strings.Split` for a separator of one character.  There is one more segment
than there are separators, and the empty sequence has the single segment `[]`. -/
def splitChars (sep : Char) : List Char → List (List Char)
  | [] => [[]]
  | c :: cs =>
    if c = sep then [] :: splitChars sep cs
    else
      match splitChars sep cs with
      | [] => [[c]]
      | seg :: rest => (c :: seg) :: rest

/-- Go `strings.Split(s, sep)` with `sep` a single character. -/
def Split (s : String) (sep : Char) : List String :=
  (splitChars sep s.data).map String.mk

/-- Go `strings.Join(elems, sep)`. -/
def Join (elems : List String) (sep : String) : String :=
  match elems with
  | [] => ""
  | e :: es => es.foldl (fun acc x => acc ++ sep ++ x) e

end strings

namespace strset

/-- The set type of `go-set/strset` is `map[string]struct{}`; it is held here as
the list of its keys, each key once. -/
abbrev Set := List String

/-- Method `Has` of a set. -/
def Has (s : Set) (item : String) : Bool := decide (item ∈ s)

/-- Method `Add` for one item: `s.m[item] = struct{}{}`. -/
def Add (s : Set) (item : String) : Set :=
  if item ∈ s then s else s ++ [item]

/-- Function `strset.New(items...)`: an empty set to which every item is added. -/
def New (items : List String) : Set := items.foldl Add []

/-- Method `List` of a set, named `Elems` here: the keys of the map, in the order
the map iteration yields them.  Go leaves that order unspecified, so it is the
argument `order`. -/
def Elems (order : List String → List String) (s : Set) : List String := order s

/-- A map iteration order yields every key exactly once. -/
def Enumerates (order : List String → List String) : Prop :=
  ∀ keys : List String, (order keys).Perm keys

end strset

namespace sort

/-- Go `sort.Strings(x)`: `x` rearranged in increasing order. -/
def Strings (x : List String) : List String :=
  x.insertionSort (fun a b => a ≤ b)

end sort

/-! ## Data model -/

/-- Author of the SBOM (`source.Author`); the field `Type` is named `Typ`. -/
structure Author where
  Name : String
  Email : String
  Typ : String
  deriving DecidableEq, Repr

/-- Configuration `fileSource`. -/
structure fileSource where
  Digests : List String
  deriving DecidableEq, Repr

/-! ## Operations -/

/-- Method `PostLoad` of `fileSource`; returns the receiver after the call and the
error. -/
def fileSource.PostLoad (order : List String → List String) (c : fileSource) :
    fileSource × Option String :=
  let digests := strset.Elems order (strset.New c.Digests)
  let digests := sort.Strings digests
  ({ c with Digests := digests }, none)

/-- Body of the loop of `ParseAuthors`, run over the remaining author strings with
`authors` the slice built so far. -/
def ParseAuthorsLoop (authors : List Author) : List String → List Author × Option String
  | [] => (authors, none)
  | authorStr :: rest =>
    let parts := strings.Split authorStr ':'
    if parts.length < 2 then
      ([], some ("invalid author format '" ++ authorStr ++
        "', expected 'type:name' or 'type:name:email'"))
    else
      let authorType := parts.getD 0 ""
      if authorType ≠ "Person" ∧ authorType ≠ "Organization" ∧ authorType ≠ "Tool" then
        ([], some ("invalid author type '" ++ authorType ++
          "', must be Person, Organization, or Tool"))
      else
        let name := parts.getD 1 ""
        if name = "" then
          ([], some "author name cannot be empty")
        else
          let email := if parts.length ≥ 3 then parts.getD 2 "" else ""
          ParseAuthorsLoop (authors ++ [{ Name := name, Email := email, Typ := authorType }]) rest

/-- Function `ParseAuthors`: parses author strings of the format `type:name:email`. -/
def ParseAuthors (authorStrings : List String) : List Author × Option String :=
  ParseAuthorsLoop [] authorStrings

/-! ## Image source configuration and the process-wide read limit -/

/-- Configuration `imageSource`. -/
structure imageSource where
  DefaultPullSource : String
  MaxLayerSize : String
  deriving DecidableEq, Repr

/-- The state of the process outside the configuration: the per-file read limit
kept by the file package of stereoscope, a signed 64-bit number of bytes. -/
structure Process where
  perFileReadLimit : Int
  deriving DecidableEq, Repr

namespace stereoscopeFile

/-- Function `SetPerFileReadLimit(maxBytes int64)` of stereoscope's file package:
stores `maxBytes` as the process-wide limit. -/
def SetPerFileReadLimit (maxBytes : Int) (p : Process) : Process :=
  { p with perFileReadLimit := maxBytes }

end stereoscopeFile

/-- Go conversion `int64(x)` of an unsigned 64-bit value `x`: the same 64 bits read
in two's complement. -/
def int64 (x : Nat) : Int :=
  if x % 2 ^ 64 < 2 ^ 63 then ((x % 2 ^ 64 : Nat) : Int)
  else ((x % 2 ^ 64 : Nat) : Int) - 2 ^ 64

/-- Package variable `validDefaultSourceValues`. -/
def validDefaultSourceValues : List String := ["registry", "docker", "podman", ""]

/-- Function `checkDefaultSourceValues`, run in the process state `p`; the state
after the call is returned with the error. -/
def checkDefaultSourceValues (source : String) (p : Process) : Option String × Process :=
  let validValues := strset.New validDefaultSourceValues
  if ¬ strset.Has validValues source then
    let validValuesString := strings.Join validDefaultSourceValues ", "
    (some (source ++ " is not a valid default source; please use one of the following: " ++
      validValuesString ++ "''"), p)
  else
    (none, p)

/-- Method `PostLoad` of `imageSource`, run in the process state `p`.  The size
parser `humanize.ParseBytes` is the argument `ParseBytes`: it returns an unsigned
64-bit byte count and an error. -/
def imageSource.PostLoad (ParseBytes : String → Nat × Option String) (c : imageSource)
    (p : Process) : Option String × Process :=
  if c.MaxLayerSize ≠ "" then
    match ParseBytes c.MaxLayerSize with
    | (_, some err) => (some err, p)
    | (perFileReadLimit, none) =>
      checkDefaultSourceValues c.DefaultPullSource
        (stereoscopeFile.SetPerFileReadLimit (int64 perFileReadLimit) p)
  else
    checkDefaultSourceValues c.DefaultPullSource p

/-! ## Specification vocabulary -/

/-- The allowed author types: `Person`, `Organization`, `Tool`, compared exactly. -/
def IsAuthorType (t : String) : Prop :=
  t = "Person" ∨ t = "Organization" ∨ t = "Tool"

instance (t : String) : Decidable (IsAuthorType t) := by
  unfold IsAuthorType; infer_instance

/-- The author the format `type:name[:email]` describes, read off the segments of
the string: segment 1 is the type, segment 2 the name, segment 3 the email, which
is empty when there is no third segment. -/
def authorOfSegments (s : String) : Author :=
  { Name := (strings.Split s ':').getD 1 ""
    Email := (strings.Split s ':').getD 2 ""
    Typ := (strings.Split s ':').getD 0 "" }

/-- The three error texts of `ParseAuthors`. -/
def malformedAuthorFormat (authorStr : String) : String :=
  "invalid author format '" ++ authorStr ++ "', expected 'type:name' or 'type:name:email'"

/-- Error text for a type outside the allowed set. -/
def invalidAuthorType (authorType : String) : String :=
  "invalid author type '" ++ authorType ++ "', must be Person, Organization, or Tool"

/-- Error text for an empty name. -/
def emptyAuthorName : String := "author name cannot be empty"

/-- The error one author string produces in the loop body, `none` when the body
reaches the `append`. -/
def authorError (authorStr : String) : Option String :=
  if (strings.Split authorStr ':').length < 2 then
    some (malformedAuthorFormat authorStr)
  else if ¬ IsAuthorType ((strings.Split authorStr ':').getD 0 "") then
    some (invalidAuthorType ((strings.Split authorStr ':').getD 0 ""))
  else if (strings.Split authorStr ':').getD 1 "" = "" then
    some emptyAuthorName
  else none

/-- The valid default pull sources in the order the specification enumerates
them: the empty value, then `registry`, `docker`, `podman`. -/
def specDefaultSourceValues : List String := ["", "registry", "docker", "podman"]

/-- Error text of `checkDefaultSourceValues` up to the list of valid values. -/
def invalidDefaultSource (source : String) : String :=
  source ++ " is not a valid default source; please use one of the following: "

/-- A name with its upper-case ASCII letters replaced by lower-case ones; two names
differ only in letter case when they have the same image. -/
def foldCase (s : String) : String :=
  String.mk (s.data.map Char.toLower)

/-- Results of `humanize.ParseBytes` on the three size strings used in the
examples, with decimal units: `10MB` is 10^7 bytes, `10EB` is 10^19 bytes, and the
unit of `10XB` is unknown.  Every other string is answered with an error here; the
examples do not use them. -/
def sampleParseBytes (s : String) : Nat × Option String :=
  if s = "10MB" then (10000000, none)
  else if s = "10EB" then (10000000000000000000, none)
  else if s = "10XB" then (0, some "unhandled size name: xb")
  else (0, some ("unhandled size name: " ++ s))

/-! ## Lemmas on `strings.Split` -/

namespace strings

theorem splitChars_ne_nil (sep : Char) (l : List Char) : splitChars sep l ≠ [] := by
  cases l with
  | nil => simp [splitChars]
  | cons c cs =>
    unfold splitChars
    split_ifs
    · simp
    · split <;> simp

theorem splitChars_cons_ne (sep c : Char) (cs : List Char) (h : c ≠ sep) :
    splitChars sep (c :: cs) =
      ((c :: (splitChars sep cs).headI) :: (splitChars sep cs).tail) := by
  have hne := splitChars_ne_nil sep cs
  rw [splitChars, if_neg h]
  cases hs : splitChars sep cs with
  | nil => exact absurd hs hne
  | cons seg rest => simp

theorem splitChars_of_not_mem (sep : Char) :
    ∀ a : List Char, sep ∉ a → splitChars sep a = [a]
  | [], _ => by simp [splitChars]
  | c :: cs, h => by
    have hc : c ≠ sep := fun e => h (by simp [e])
    have hcs : sep ∉ cs := fun e => h (by simp [e])
    rw [splitChars_cons_ne sep c cs hc, splitChars_of_not_mem sep cs hcs]
    simp

theorem splitChars_append_sep (sep : Char) (b : List Char) :
    ∀ a : List Char, sep ∉ a → splitChars sep (a ++ sep :: b) = a :: splitChars sep b
  | [], _ => by simp [splitChars]
  | c :: cs, h => by
    have hc : c ≠ sep := fun e => h (by simp [e])
    have hcs : sep ∉ cs := fun e => h (by simp [e])
    rw [List.cons_append, splitChars_cons_ne sep c _ hc, splitChars_append_sep sep b cs hcs]
    simp

theorem length_splitChars_lt_two (sep : Char) :
    ∀ l : List Char, (splitChars sep l).length < 2 ↔ sep ∉ l
  | [] => by simp [splitChars]
  | c :: cs => by
    by_cases hc : c = sep
    · subst hc
      have hne := splitChars_ne_nil c cs
      have : 0 < (splitChars c cs).length := List.length_pos.mpr hne
      simp [splitChars]
      omega
    · have ih := length_splitChars_lt_two sep cs
      have hne := splitChars_ne_nil sep cs
      rw [splitChars_cons_ne sep c cs hc]
      have hlen : ((c :: (splitChars sep cs).headI) :: (splitChars sep cs).tail).length
          = (splitChars sep cs).length := by
        cases hs : splitChars sep cs with
        | nil => exact absurd hs hne
        | cons seg rest => simp
      rw [hlen, ih]
      simp [Ne.symm hc]

theorem not_mem_of_mem_splitChars (sep : Char) :
    ∀ (l seg : List Char), seg ∈ splitChars sep l → sep ∉ seg
  | [], seg, h => by
    simp [splitChars] at h
    simp [h]
  | c :: cs, seg, h => by
    by_cases hc : c = sep
    · subst hc
      simp only [splitChars, if_true, List.mem_cons] at h
      rcases h with h | h
      · simp [h]
      · exact not_mem_of_mem_splitChars c cs seg h
    · rw [splitChars_cons_ne sep c cs hc] at h
      have hne := splitChars_ne_nil sep cs
      cases hs : splitChars sep cs with
      | nil => exact absurd hs hne
      | cons seg0 rest =>
        rw [hs] at h
        simp only [List.headI_cons, List.tail_cons, List.mem_cons] at h
        rcases h with h | h
        · subst h
          have h0 := not_mem_of_mem_splitChars sep cs seg0 (by simp [hs])
          simp [Ne.symm hc, h0]
        · exact not_mem_of_mem_splitChars sep cs seg (by simp [hs, h])

theorem length_Split (s : String) (sep : Char) :
    (Split s sep).length = (splitChars sep s.data).length := by
  simp [Split]

theorem length_Split_lt_two (s : String) (sep : Char) :
    (Split s sep).length < 2 ↔ sep ∉ s.data := by
  rw [length_Split, length_splitChars_lt_two]

theorem not_mem_of_mem_Split (s seg : String) (sep : Char) (h : seg ∈ Split s sep) :
    sep ∉ seg.data := by
  simp only [Split, List.mem_map] at h
  obtain ⟨cs, hcs, rfl⟩ := h
  exact not_mem_of_mem_splitChars sep s.data cs hcs

theorem Split_of_not_mem (s : String) (sep : Char) (h : sep ∉ s.data) :
    Split s sep = [s] := by
  simp [Split, splitChars_of_not_mem sep s.data h]

theorem Split_append_sep (a b : String) (sep : Char) (h : sep ∉ a.data) :
    Split (a ++ String.singleton sep ++ b) sep = a :: Split b sep := by
  simp [Split, String.singleton, splitChars_append_sep sep b.data a.data h]

end strings

/-! ## Lemmas on the loop of `ParseAuthors` -/

theorem getD_two_of_length {parts : List String} :
    (if parts.length ≥ 3 then parts.getD 2 "" else "") = parts.getD 2 "" := by
  split_ifs with h
  · rfl
  · have : parts.length ≤ 2 := by omega
    exact (List.getD_eq_default _ _ this).symm

theorem ParseAuthorsLoop_cons (authors : List Author) (s : String) (rest : List String) :
    ParseAuthorsLoop authors (s :: rest) =
      match authorError s with
      | some e => ([], some e)
      | none => ParseAuthorsLoop (authors ++ [authorOfSegments s]) rest := by
  rw [ParseAuthorsLoop]
  simp only [authorError, malformedAuthorFormat, invalidAuthorType, emptyAuthorName,
    IsAuthorType, authorOfSegments, getD_two_of_length, not_or, ne_eq]
  split_ifs <;> rfl

theorem ParseAuthorsLoop_ok (l : List String) :
    ∀ authors : List Author, (∀ s ∈ l, authorError s = none) →
      ParseAuthorsLoop authors l = (authors ++ l.map authorOfSegments, none) := by
  induction l with
  | nil => intro authors _; simp [ParseAuthorsLoop]
  | cons s rest ih =>
    intro authors h
    rw [ParseAuthorsLoop_cons, h s (by simp)]
    simp only
    rw [ih _ (fun x hx => h x (by simp [hx]))]
    simp

theorem ParseAuthorsLoop_err (pre : List String) (s : String) (post : List String)
    (e : String) (hs : authorError s = some e) :
    ∀ authors : List Author, (∀ x ∈ pre, authorError x = none) →
      ParseAuthorsLoop authors (pre ++ s :: post) = ([], some e) := by
  induction pre with
  | nil => intro authors _; rw [List.nil_append, ParseAuthorsLoop_cons, hs]
  | cons x pre ih =>
    intro authors h
    rw [List.cons_append, ParseAuthorsLoop_cons, h x (by simp)]
    exact ih _ (fun y hy => h y (by simp [hy]))

theorem ParseAuthors_singleton (s : String) :
    ParseAuthors [s] =
      match authorError s with
      | some e => ([], some e)
      | none => ([authorOfSegments s], none) := by
  rw [ParseAuthors, ParseAuthorsLoop_cons]
  cases authorError s <;> simp [ParseAuthorsLoop]

theorem authorError_eq_none_iff (s : String) :
    authorError s = none ↔ (ParseAuthors [s]).2 = none := by
  rw [ParseAuthors_singleton]
  cases authorError s <;> simp

theorem authorError_eq_none_of (s : String) (h2 : 2 ≤ (strings.Split s ':').length)
    (ht : IsAuthorType ((strings.Split s ':').getD 0 ""))
    (hn : (strings.Split s ':').getD 1 "" ≠ "") : authorError s = none := by
  have : ¬ (strings.Split s ':').length < 2 := by omega
  unfold authorError
  rw [if_neg this, if_neg (not_not.mpr ht), if_neg hn]

theorem isAuthorType_of_authorError (s : String) (h : authorError s = none) :
    (authorOfSegments s).Name ≠ "" ∧ IsAuthorType (authorOfSegments s).Typ := by
  unfold authorError at h
  split_ifs at h with h1 h2 h3
  exact ⟨h3, h2⟩

theorem colon_not_mem_of_isAuthorType (t : String) (h : IsAuthorType t) : ':' ∉ t.data := by
  rcases h with h | h | h <;> subst h <;> decide

theorem Split_three (t n e : String) (ht : ':' ∉ t.data) (hn : ':' ∉ n.data)
    (he : ':' ∉ e.data) : strings.Split (t ++ ":" ++ n ++ ":" ++ e) ':' = [t, n, e] := by
  have h1 : t ++ ":" ++ n ++ ":" ++ e
      = t ++ String.singleton ':' ++ (n ++ String.singleton ':' ++ e) := by
    apply String.ext
    simp [String.singleton]
  rw [h1, strings.Split_append_sep _ _ _ ht, strings.Split_append_sep _ _ _ hn,
    strings.Split_of_not_mem _ _ he]

theorem Split_two (t n : String) (ht : ':' ∉ t.data) (hn : ':' ∉ n.data) :
    strings.Split (t ++ ":" ++ n) ':' = [t, n] := by
  have h1 : t ++ ":" ++ n = t ++ String.singleton ':' ++ n := by
    apply String.ext
    simp [String.singleton]
  rw [h1, strings.Split_append_sep _ _ _ ht, strings.Split_of_not_mem _ _ hn]

theorem exists_first_error (l : List String) (h : ∃ s ∈ l, authorError s ≠ none) :
    ∃ pre s post e, l = pre ++ s :: post ∧ (∀ x ∈ pre, authorError x = none) ∧
      authorError s = some e := by
  induction l with
  | nil => simp at h
  | cons x rest ih =>
    cases hx : authorError x with
    | some e => exact ⟨[], x, rest, e, by simp, by simp, hx⟩
    | none =>
      obtain ⟨s, hs, hne⟩ := h
      have hs2 : s ∈ rest := by
        rcases List.mem_cons.mp hs with h1 | h1
        · subst h1; exact absurd hx hne
        · exact h1
      obtain ⟨pre, s1, post, e, hl, hpre, he⟩ := ih ⟨s, hs2, hne⟩
      refine ⟨x :: pre, s1, post, e, by simp [hl], ?_, he⟩
      intro y hy
      rcases List.mem_cons.mp hy with h1 | h1
      · subst h1; exact hx
      · exact hpre y h1

/-! ## Author parsing: the claims -/

/-- C1: when every input string has at least two segments, an allowed type as first
segment and a non-empty second segment, `ParseAuthors` returns no error and a list
as long as the input whose entry `i` has the type, name and email of segments 1, 2
and 3 of input `i` (the email is empty when there is no third segment). -/
theorem ParseAuthors_valid (l : List String)
    (h : ∀ s ∈ l, 2 ≤ (strings.Split s ':').length ∧
      IsAuthorType ((strings.Split s ':').getD 0 "") ∧ (strings.Split s ':').getD 1 "" ≠ "") :
    (ParseAuthors l).2 = none ∧ (ParseAuthors l).1.length = l.length ∧
      ∀ (i : Nat) (hi : i < l.length), (ParseAuthors l).1[i]? =
        some { Name := (strings.Split l[i] ':').getD 1 ""
               Email := (strings.Split l[i] ':').getD 2 ""
               Typ := (strings.Split l[i] ':').getD 0 "" } := by
  have hok : ParseAuthors l = (l.map authorOfSegments, none) := by
    rw [ParseAuthors, ParseAuthorsLoop_ok l []
      (fun s hs => authorError_eq_none_of s (h s hs).1 (h s hs).2.1 (h s hs).2.2)]
    simp
  rw [hok]
  refine ⟨rfl, by simp, ?_⟩
  intro i hi
  simp [authorOfSegments, List.getElem?_eq_getElem hi]

/-- Witness of C1 on the two author strings of the scenario. -/
theorem ParseAuthors_valid_witness :
    ParseAuthors ["Person:Jane Doe:jane@example.com", "Tool:syft-core"] =
        ([{ Name := "Jane Doe", Email := "jane@example.com", Typ := "Person" },
          { Name := "syft-core", Email := "", Typ := "Tool" }], none) ∧
      (ParseAuthors ["Person:Jane Doe:jane@example.com", "Tool:syft-core"]).2 = none ∧
      (ParseAuthors ["Person:Jane Doe:jane@example.com", "Tool:syft-core"]).1.length = 2 :=
  ⟨by decide,
    (ParseAuthors_valid ["Person:Jane Doe:jane@example.com", "Tool:syft-core"] (by decide)).1,
    (ParseAuthors_valid ["Person:Jane Doe:jane@example.com", "Tool:syft-core"] (by decide)).2.1⟩

/-- C2: when `ParseAuthors` returns no error, every author of the result has a
non-empty name and a type that is exactly `Person`, `Organization` or `Tool`. -/
theorem ParseAuthors_invariant (l : List String) (h : (ParseAuthors l).2 = none) :
    ∀ a ∈ (ParseAuthors l).1, a.Name ≠ "" ∧ IsAuthorType a.Typ := by
  by_cases hall : ∀ s ∈ l, authorError s = none
  · rw [ParseAuthors, ParseAuthorsLoop_ok l [] hall]
    intro a ha
    simp only [List.nil_append, List.mem_map] at ha
    obtain ⟨s, hs, rfl⟩ := ha
    exact isAuthorType_of_authorError s (hall s hs)
  · have hex : ∃ s ∈ l, authorError s ≠ none := by
      by_contra hcon
      exact hall (fun s hs => by_contra (fun hne => hcon ⟨s, hs, hne⟩))
    obtain ⟨pre, s, post, e, hl, hpre, he⟩ := exists_first_error l hex
    rw [hl, ParseAuthors, ParseAuthorsLoop_err pre s post e he [] hpre] at h
    simp at h

/-- Witness of C2 on a list of three valid author strings. -/
theorem ParseAuthors_invariant_witness :
    (ParseAuthors ["Organization:ACME:sec@acme.io", "Tool:syft", "Person:A:"]).2 = none ∧
      ∀ a ∈ (ParseAuthors ["Organization:ACME:sec@acme.io", "Tool:syft", "Person:A:"]).1,
        a.Name ≠ "" ∧ IsAuthorType a.Typ :=
  ⟨by decide,
    ParseAuthors_invariant ["Organization:ACME:sec@acme.io", "Tool:syft", "Person:A:"]
      (by decide)⟩

/-- C3: an author string with fewer than two segments, that is one without any
`:` (the empty string included), makes `ParseAuthors` on the singleton list fail
with the malformed-format error, which quotes the string. -/
theorem ParseAuthors_malformed (s : String)
    (h : (strings.Split s ':').length < 2 ∨ ':' ∉ s.data) :
    ParseAuthors [s] = ([], some ("invalid author format '" ++ s ++
      "', expected 'type:name' or 'type:name:email'")) := by
  have hlen : (strings.Split s ':').length < 2 := by
    rcases h with h | h
    · exact h
    · exact (strings.length_Split_lt_two s ':').mpr h
  rw [ParseAuthors_singleton]
  simp [authorError, hlen, malformedAuthorFormat]

/-- Witness of C3 on the empty string and on a string without colon. -/
theorem ParseAuthors_malformed_witness :
    ParseAuthors [""] =
        ([], some "invalid author format '', expected 'type:name' or 'type:name:email'") ∧
      ParseAuthors ["Person"] =
        ([], some "invalid author format 'Person', expected 'type:name' or 'type:name:email'") :=
  ⟨ParseAuthors_malformed "" (Or.inl (by decide)),
    ParseAuthors_malformed "Person" (Or.inr (by decide))⟩

/-- C4: an author string with at least two segments whose first segment is not
exactly `Person`, `Organization` or `Tool` makes `ParseAuthors` fail with the
invalid-type error, whose text quotes that first segment; this holds whatever
strings follow it in the list. -/
theorem ParseAuthors_invalid_type (s : String) (rest : List String)
    (h2 : 2 ≤ (strings.Split s ':').length)
    (ht : ¬ IsAuthorType ((strings.Split s ':').getD 0 "")) :
    ParseAuthors (s :: rest) = ([], some ("invalid author type '" ++
      (strings.Split s ':').getD 0 "" ++ "', must be Person, Organization, or Tool")) := by
  have hlen : ¬ (strings.Split s ':').length < 2 := by omega
  have he : authorError s = some (invalidAuthorType ((strings.Split s ':').getD 0 "")) := by
    unfold authorError
    rw [if_neg hlen, if_pos ht]
  rw [ParseAuthors, ParseAuthorsLoop_cons, he]
  rfl

/-- Witness of C4 on `Robot:bad` and on the lower-case `person:x`. -/
theorem ParseAuthors_invalid_type_witness :
    ParseAuthors ["Robot:bad"] =
        ([], some "invalid author type 'Robot', must be Person, Organization, or Tool") ∧
      ParseAuthors ["person:x"] =
        ([], some "invalid author type 'person', must be Person, Organization, or Tool") :=
  ⟨ParseAuthors_invalid_type "Robot:bad" [] (by decide) (by decide),
    ParseAuthors_invalid_type "person:x" [] (by decide) (by decide)⟩

/-- C5: an author string whose first segment is an allowed type and whose second
segment is the empty string makes `ParseAuthors` fail with the empty-name error;
this holds whatever strings follow it in the list. -/
theorem ParseAuthors_empty_name (s : String) (rest : List String)
    (ht : IsAuthorType ((strings.Split s ':').getD 0 ""))
    (hn : (strings.Split s ':')[1]? = some "") :
    ParseAuthors (s :: rest) = ([], some "author name cannot be empty") := by
  have hlen : ¬ (strings.Split s ':').length < 2 := by
    intro hlt
    have : (strings.Split s ':')[1]? = none := List.getElem?_eq_none (by omega)
    rw [this] at hn
    exact Option.noConfusion hn
  have h1 : (strings.Split s ':').getD 1 "" = "" := by
    rw [List.getD_eq_getElem?_getD, hn]
    rfl
  have he : authorError s = some emptyAuthorName := by
    unfold authorError
    rw [if_neg hlen, if_neg (not_not.mpr ht), if_pos h1]
  rw [ParseAuthors, ParseAuthorsLoop_cons, he]
  rfl

/-- Witness of C5 on `Person:` and on `Tool::a@b.c`. -/
theorem ParseAuthors_empty_name_witness :
    ParseAuthors ["Person:"] = ([], some "author name cannot be empty") ∧
      ParseAuthors ["Tool::a@b.c"] = ([], some "author name cannot be empty") :=
  ⟨ParseAuthors_empty_name "Person:" [] (by decide) (by decide),
    ParseAuthors_empty_name "Tool::a@b.c" [] (by decide) (by decide)⟩

/-- C6: when some string of the input is invalid on its own, the input splits at
its first invalid string `s` (every string of `pre` is valid on its own), and
`ParseAuthors` returns the error of `s` together with the empty list of authors,
whatever strings come after `s`. -/
theorem ParseAuthors_first_failure (l : List String)
    (h : ∃ s ∈ l, (ParseAuthors [s]).2 ≠ none) :
    ∃ (pre : List String) (s : String) (post : List String) (e : String),
      l = pre ++ s :: post ∧ (∀ x ∈ pre, (ParseAuthors [x]).2 = none) ∧
      ParseAuthors [s] = ([], some e) ∧ ParseAuthors l = ([], some e) ∧
      ∀ post2 : List String, ParseAuthors (pre ++ s :: post2) = ([], some e) := by
  have hex : ∃ s ∈ l, authorError s ≠ none := by
    obtain ⟨s, hs, hne⟩ := h
    exact ⟨s, hs, fun hn => hne ((authorError_eq_none_iff s).mp hn)⟩
  obtain ⟨pre, s, post, e, hl, hpre, he⟩ := exists_first_error l hex
  refine ⟨pre, s, post, e, hl, ?_, ?_, ?_, ?_⟩
  · exact fun x hx => (authorError_eq_none_iff x).mp (hpre x hx)
  · rw [ParseAuthors_singleton, he]
  · rw [hl]
    exact ParseAuthorsLoop_err pre s post e he [] hpre
  · exact fun post2 => ParseAuthorsLoop_err pre s post2 e he [] hpre

/-- Witness of C6: two valid strings, then an invalid type, then a malformed string. -/
theorem ParseAuthors_first_failure_witness :
    ParseAuthors ["Person:a", "Tool:b:c", "Robot:bad", "x"] =
        ([], some "invalid author type 'Robot', must be Person, Organization, or Tool") ∧
      ∃ (pre : List String) (s : String) (post : List String) (e : String),
        ["Person:a", "Tool:b:c", "Robot:bad", "x"] = pre ++ s :: post ∧
        (∀ x ∈ pre, (ParseAuthors [x]).2 = none) ∧
        ParseAuthors [s] = ([], some e) ∧
        ParseAuthors ["Person:a", "Tool:b:c", "Robot:bad", "x"] = ([], some e) ∧
        ∀ post2 : List String, ParseAuthors (pre ++ s :: post2) = ([], some e) :=
  ⟨by decide,
    ParseAuthors_first_failure ["Person:a", "Tool:b:c", "Robot:bad", "x"]
      ⟨"x", by decide, by decide⟩⟩

/-- C7: for an author with an allowed type, a non-empty name without `:` and an
email without `:`, parsing `Type:Name:Email` returns exactly that author, and when
the email is empty so does parsing `Type:Name`. -/
theorem ParseAuthors_roundtrip (a : Author) (ht : IsAuthorType a.Typ) (hn : a.Name ≠ "")
    (hnc : ':' ∉ a.Name.data) (hec : ':' ∉ a.Email.data) :
    ParseAuthors [a.Typ ++ ":" ++ a.Name ++ ":" ++ a.Email] = ([a], none) ∧
      (a.Email = "" → ParseAuthors [a.Typ ++ ":" ++ a.Name] = ([a], none)) := by
  have htc := colon_not_mem_of_isAuthorType a.Typ ht
  have h3 := Split_three a.Typ a.Name a.Email htc hnc hec
  have h2 := Split_two a.Typ a.Name htc hnc
  constructor
  · have he : authorError (a.Typ ++ ":" ++ a.Name ++ ":" ++ a.Email) = none :=
      authorError_eq_none_of _ (by simp [h3]) (by simpa [h3] using ht) (by simpa [h3] using hn)
    rw [ParseAuthors_singleton, he]
    simp [authorOfSegments, h3]
  · intro hemail
    have he : authorError (a.Typ ++ ":" ++ a.Name) = none :=
      authorError_eq_none_of _ (by simp [h2]) (by simpa [h2] using ht) (by simpa [h2] using hn)
    rw [ParseAuthors_singleton, he]
    cases a with
    | mk n e t =>
      simp only at hemail
      subst hemail
      simp [authorOfSegments] at h2 ⊢
      simp [h2]

/-- Witness of C7 on a tool author without email. -/
theorem ParseAuthors_roundtrip_witness :
    ParseAuthors ["Tool" ++ ":" ++ "syft-core" ++ ":" ++ ""] =
        ([{ Name := "syft-core", Email := "", Typ := "Tool" }], none) ∧
      ParseAuthors ["Tool" ++ ":" ++ "syft-core"] =
        ([{ Name := "syft-core", Email := "", Typ := "Tool" }], none) :=
  ⟨(ParseAuthors_roundtrip { Name := "syft-core", Email := "", Typ := "Tool" }
      (by decide) (by decide) (by decide) (by decide)).1,
    (ParseAuthors_roundtrip { Name := "syft-core", Email := "", Typ := "Tool" }
      (by decide) (by decide) (by decide) (by decide)).2 rfl⟩

/-- C8: for an author string with four or more segments whose first two segments
are an allowed type and a non-empty name, `ParseAuthors` returns no error and the
single author made of the first three segments, the email being the third one;
that is also what it returns for the first three segments joined by `:`. -/
theorem ParseAuthors_extra_segments (s : String) (h4 : 4 ≤ (strings.Split s ':').length)
    (ht : IsAuthorType ((strings.Split s ':').getD 0 ""))
    (hn : (strings.Split s ':').getD 1 "" ≠ "") :
    ParseAuthors [s] =
        ([{ Name := (strings.Split s ':').getD 1 ""
            Email := (strings.Split s ':').getD 2 ""
            Typ := (strings.Split s ':').getD 0 "" }], none) ∧
      ParseAuthors [strings.Join ((strings.Split s ':').take 3) ":"] = ParseAuthors [s] := by
  have he : authorError s = none := authorError_eq_none_of s (by omega) ht hn
  have hs : ParseAuthors [s] = ([authorOfSegments s], none) := by
    rw [ParseAuthors_singleton, he]
  refine ⟨hs, ?_⟩
  rw [hs]
  have hmem : ∀ seg ∈ strings.Split s ':', ':' ∉ seg.data :=
    fun seg hseg => strings.not_mem_of_mem_Split s seg ':' hseg
  match hp : strings.Split s ':' with
  | [] => rw [hp] at h4; simp at h4
  | [_] => rw [hp] at h4; simp at h4
  | [_, _] => rw [hp] at h4; simp at h4
  | [_, _, _] => rw [hp] at h4; simp at h4
  | p0 :: p1 :: p2 :: p3 :: more =>
    rw [hp] at hmem ht hn
    have h0 : ':' ∉ p0.data := hmem p0 (by simp)
    have h1 : ':' ∉ p1.data := hmem p1 (by simp)
    have h2 : ':' ∉ p2.data := hmem p2 (by simp)
    have hj : strings.Join (List.take 3 (p0 :: p1 :: p2 :: p3 :: more)) ":"
        = p0 ++ ":" ++ p1 ++ ":" ++ p2 := rfl
    have h3 := Split_three p0 p1 p2 h0 h1 h2
    have he3 : authorError (p0 ++ ":" ++ p1 ++ ":" ++ p2) = none :=
      authorError_eq_none_of _ (by simp [h3]) (by simpa [h3] using ht) (by simpa [h3] using hn)
    rw [hj, ParseAuthors_singleton, he3]
    simp [authorOfSegments, h3, hp]

/-- Witness of C8 on `Person:Name:email:extra`. -/
theorem ParseAuthors_extra_segments_witness :
    ParseAuthors ["Person:Name:email:extra"] =
        ([{ Name := "Name", Email := "email", Typ := "Person" }], none) ∧
      ParseAuthors [strings.Join ((strings.Split "Person:Name:email:extra" ':').take 3) ":"] =
        ParseAuthors ["Person:Name:email:extra"] ∧
      strings.Join ((strings.Split "Person:Name:email:extra" ':').take 3) ":" =
        "Person:Name:email" :=
  ⟨(ParseAuthors_extra_segments "Person:Name:email:extra" (by decide) (by decide)
      (by decide)).1,
    (ParseAuthors_extra_segments "Person:Name:email:extra" (by decide) (by decide)
      (by decide)).2, by decide⟩

/-! ## Lemmas on the digest set and on sorting -/

namespace strset

theorem mem_foldl_Add (items : List String) :
    ∀ (s : List String) (x : String), x ∈ items.foldl Add s ↔ x ∈ s ∨ x ∈ items := by
  induction items with
  | nil => intro s x; simp
  | cons y ys ih =>
    intro s x
    rw [List.foldl_cons, ih]
    unfold Add
    split_ifs with hy
    · constructor
      · rintro (h | h)
        · exact Or.inl h
        · exact Or.inr (by simp [h])
      · rintro (h | h)
        · exact Or.inl h
        · rcases List.mem_cons.mp h with h1 | h1
          · subst h1; exact Or.inl hy
          · exact Or.inr h1
    · simp only [List.mem_append, List.mem_singleton, List.mem_cons]
      tauto

theorem nodup_foldl_Add (items : List String) :
    ∀ s : List String, s.Nodup → (items.foldl Add s).Nodup := by
  induction items with
  | nil => intro s hs; simpa using hs
  | cons y ys ih =>
    intro s hs
    rw [List.foldl_cons]
    apply ih
    unfold Add
    split_ifs with hy
    · exact hs
    · rw [List.nodup_append]
      refine ⟨hs, by simp, ?_⟩
      intro a ha hb
      simp only [List.mem_singleton] at hb
      subst hb
      exact hy ha

theorem mem_New (items : List String) (x : String) : x ∈ New items ↔ x ∈ items := by
  simp [New, mem_foldl_Add]

theorem nodup_New (items : List String) : (New items).Nodup :=
  nodup_foldl_Add items [] List.nodup_nil

theorem perm_Elems_New (order : List String → List String) (h : Enumerates order)
    (items : List String) : (Elems order (New items)).Perm (New items) :=
  h (New items)

end strset

namespace sort

theorem sorted_Strings (x : List String) : (Strings x).Sorted (fun a b => a ≤ b) :=
  List.sorted_insertionSort (fun a b : String => a ≤ b) x

theorem perm_Strings (x : List String) : (Strings x).Perm x :=
  List.perm_insertionSort (fun a b : String => a ≤ b) x

theorem Strings_eq_of_perm_sorted (x y : List String) (hp : x.Perm y)
    (hy : y.Sorted (fun a b => a ≤ b)) : Strings x = y :=
  List.eq_of_perm_of_sorted ((perm_Strings x).trans hp) (sorted_Strings x) hy

end sort

theorem PostLoad_Digests_perm (order : List String → List String)
    (horder : strset.Enumerates order) (c : fileSource) :
    (c.PostLoad order).1.Digests.Perm (strset.New c.Digests) :=
  (sort.perm_Strings _).trans (strset.perm_Elems_New order horder c.Digests)

theorem PostLoad_of_sorted (order : List String → List String)
    (horder : strset.Enumerates order) (c : fileSource)
    (hs : c.Digests.Sorted (fun a b => a < b)) : c.PostLoad order = (c, none) := by
  have hnew : (strset.New c.Digests).Perm c.Digests :=
    (List.perm_ext_iff_of_nodup (strset.nodup_New _) hs.nodup).mpr (strset.mem_New _)
  have hp : (strset.Elems order (strset.New c.Digests)).Perm c.Digests :=
    (strset.perm_Elems_New order horder c.Digests).trans hnew
  have := sort.Strings_eq_of_perm_sorted _ _ hp hs.le_of_lt
  simp [fileSource.PostLoad, this]

theorem PostLoad_Digests_sorted_lt (order : List String → List String)
    (horder : strset.Enumerates order) (c : fileSource) :
    (c.PostLoad order).1.Digests.Sorted (fun a b => a < b) :=
  (sort.sorted_Strings _).lt_of_le
    ((PostLoad_Digests_perm order horder c).nodup_iff.mpr (strset.nodup_New _))

/-! ## Digest normalisation: the claims -/

/-- C9: whatever the input list and the iteration order of the intermediate set,
`fileSource.PostLoad` returns no error and leaves a list of digests that is in
ascending lexicographic order, has no repeated string, and holds exactly the
strings of the input list. -/
theorem fileSource_PostLoad_normalizes (order : List String → List String)
    (horder : strset.Enumerates order) (c : fileSource) :
    (c.PostLoad order).2 = none ∧
      (c.PostLoad order).1.Digests.Sorted (fun a b => a ≤ b) ∧
      (c.PostLoad order).1.Digests.Nodup ∧
      ∀ x : String, x ∈ (c.PostLoad order).1.Digests ↔ x ∈ c.Digests := by
  have hp := PostLoad_Digests_perm order horder c
  refine ⟨rfl, sort.sorted_Strings _, hp.nodup_iff.mpr (strset.nodup_New _), ?_⟩
  intro x
  rw [hp.mem_iff, strset.mem_New]

/-- Witness of C9 with the set enumerated in reverse insertion order, on a list
with a repeated name and on the empty list. -/
theorem fileSource_PostLoad_normalizes_witness :
    fileSource.PostLoad List.reverse { Digests := ["sha256", "md5", "sha256", "SHA1"] } =
        ({ Digests := ["SHA1", "md5", "sha256"] }, none) ∧
      fileSource.PostLoad List.reverse { Digests := [] } = ({ Digests := [] }, none) ∧
      (fileSource.PostLoad List.reverse
        { Digests := ["sha256", "md5", "sha256", "SHA1"] }).1.Digests.Nodup :=
  ⟨by
      simp [fileSource.PostLoad, strset.Elems, strset.New, strset.Add, sort.Strings,
        List.insertionSort, List.orderedInsert]
      decide,
    by simp [fileSource.PostLoad, strset.Elems, strset.New, sort.Strings],
    (fileSource_PostLoad_normalizes List.reverse (fun keys => List.reverse_perm keys)
      { Digests := ["sha256", "md5", "sha256", "SHA1"] }).2.2.1⟩

/-- C10: digest normalisation is idempotent.  Applying `fileSource.PostLoad` to
its own result gives that result again, whatever the two iteration orders of the
intermediate sets, and applying it to a list that is already in strictly ascending
order (sorted and free of repetitions) leaves the configuration unchanged. -/
theorem fileSource_PostLoad_idempotent (order1 order2 : List String → List String)
    (h1 : strset.Enumerates order1) (h2 : strset.Enumerates order2) (c : fileSource) :
    (c.PostLoad order1).1.PostLoad order2 = c.PostLoad order1 ∧
      (c.Digests.Sorted (fun a b => a < b) → c.PostLoad order1 = (c, none)) := by
  refine ⟨?_, PostLoad_of_sorted order1 h1 c⟩
  rw [PostLoad_of_sorted order2 h2 _ (PostLoad_Digests_sorted_lt order1 h1 c)]
  rfl

/-- Witness of C10: `sha256, sha256, SHA1` normalises to `SHA1, sha256`, which
normalises to itself. -/
theorem fileSource_PostLoad_idempotent_witness :
    fileSource.PostLoad id { Digests := ["sha256", "sha256", "SHA1"] } =
        ({ Digests := ["SHA1", "sha256"] }, none) ∧
      fileSource.PostLoad List.reverse { Digests := ["SHA1", "sha256"] } =
        ({ Digests := ["SHA1", "sha256"] }, none) ∧
      (fileSource.PostLoad id { Digests := ["sha256", "sha256", "SHA1"] }).1.PostLoad
        List.reverse = fileSource.PostLoad id { Digests := ["sha256", "sha256", "SHA1"] } :=
  ⟨by
      simp [fileSource.PostLoad, strset.Elems, strset.New, strset.Add, sort.Strings,
        List.insertionSort, List.orderedInsert]
      decide,
    (fileSource_PostLoad_idempotent List.reverse id (fun keys => List.reverse_perm keys)
      (fun keys => List.Perm.refl keys) { Digests := ["SHA1", "sha256"] }).2
      (by simp; decide),
    (fileSource_PostLoad_idempotent id List.reverse (fun keys => List.Perm.refl keys)
      (fun keys => List.reverse_perm keys) { Digests := ["sha256", "sha256", "SHA1"] }).1⟩

theorem perm_New_of_mem_iff (l1 l2 : List String) (h : ∀ x : String, x ∈ l1 ↔ x ∈ l2) :
    (strset.New l1).Perm (strset.New l2) := by
  refine (List.perm_ext_iff_of_nodup (strset.nodup_New l1) (strset.nodup_New l2)).mpr ?_
  intro x
  rw [strset.mem_New, strset.mem_New, h]

theorem length_filter_pair_of_nodup (l : List String) (a b : String) (hl : l.Nodup)
    (ha : a ∈ l) (hb : b ∈ l) (hne : a ≠ b) :
    (l.filter (fun x => decide (x = a ∨ x = b))).length = 2 := by
  have hperm : (l.filter (fun x => decide (x = a ∨ x = b))).Perm [a, b] := by
    refine (List.perm_ext_iff_of_nodup (hl.filter _) (by simp [hne])).mpr ?_
    intro x
    simp only [List.mem_filter, decide_eq_true_eq, List.mem_cons, List.mem_singleton,
      List.not_mem_nil, or_false]
    constructor
    · exact fun h => h.2
    · rintro (h | h)
      · subst h; exact ⟨ha, Or.inl rfl⟩
      · subst h; exact ⟨hb, Or.inr rfl⟩
  simpa using hperm.length_eq

/-- C11: two input lists that hold the same set of strings, in any order and with
any repetitions, are normalised by `fileSource.PostLoad` to the same result,
whatever the iteration orders of the two intermediate sets. -/
theorem fileSource_PostLoad_deterministic (order1 order2 : List String → List String)
    (h1 : strset.Enumerates order1) (h2 : strset.Enumerates order2) (c1 c2 : fileSource)
    (hset : ∀ x : String, x ∈ c1.Digests ↔ x ∈ c2.Digests) :
    c1.PostLoad order1 = c2.PostLoad order2 ∧
      (c1.PostLoad order1).1.Digests = (c2.PostLoad order2).1.Digests := by
  have hp : (strset.Elems order1 (strset.New c1.Digests)).Perm
      (sort.Strings (strset.Elems order2 (strset.New c2.Digests))) :=
    ((strset.perm_Elems_New order1 h1 c1.Digests).trans
      (perm_New_of_mem_iff c1.Digests c2.Digests hset)).trans
      ((sort.perm_Strings _).trans (strset.perm_Elems_New order2 h2 c2.Digests)).symm
  have heq := sort.Strings_eq_of_perm_sorted _ _ hp (sort.sorted_Strings _)
  have hd : (c1.PostLoad order1).1.Digests = (c2.PostLoad order2).1.Digests := heq
  refine ⟨?_, hd⟩
  simp only [fileSource.PostLoad] at hd ⊢
  rw [hd]

/-- Witness of C11: the same three names in another order and with other
repetitions, the two sets enumerated in different orders. -/
theorem fileSource_PostLoad_deterministic_witness :
    fileSource.PostLoad id { Digests := ["sha256", "md5", "sha256", "SHA1"] } =
        fileSource.PostLoad List.reverse { Digests := ["SHA1", "SHA1", "sha256", "md5"] } ∧
      (fileSource.PostLoad id { Digests := ["sha256", "md5", "sha256", "SHA1"] }).1.Digests =
        (fileSource.PostLoad List.reverse
          { Digests := ["SHA1", "SHA1", "sha256", "md5"] }).1.Digests :=
  fileSource_PostLoad_deterministic id List.reverse (fun keys => List.Perm.refl keys)
    (fun keys => List.reverse_perm keys) { Digests := ["sha256", "md5", "sha256", "SHA1"] }
    { Digests := ["SHA1", "SHA1", "sha256", "md5"] }
    (fun x => by simp only [List.mem_cons, List.not_mem_nil, or_false]; tauto)

/-- C12, counterexample: `sha256` and `SHA256` differ only in letter case, and the
list `sha256, SHA256` is normalised to the two entries `SHA256, sha256`; the
results for `sha256` alone and for `SHA256` alone differ. -/
theorem fileSource_PostLoad_case_counterexample :
    foldCase "sha256" = foldCase "SHA256" ∧
      (fileSource.PostLoad id { Digests := ["sha256", "SHA256"] }).1.Digests =
        ["SHA256", "sha256"] ∧
      (fileSource.PostLoad id { Digests := ["sha256"] }).1.Digests ≠
        (fileSource.PostLoad id { Digests := ["SHA256"] }).1.Digests := by
  refine ⟨by decide, ?_, ?_⟩
  · simp [fileSource.PostLoad, strset.Elems, strset.New, strset.Add, sort.Strings,
      List.insertionSort, List.orderedInsert]
    decide
  · simp [fileSource.PostLoad, strset.Elems, strset.New, strset.Add, sort.Strings,
      List.insertionSort, List.orderedInsert]

/-- C12, amended: digest names are deduplicated by exact string equality.  Two
different strings of the input list, also when they differ only in letter case, are
both in the list `fileSource.PostLoad` leaves, which has exactly two entries for
them. -/
theorem fileSource_PostLoad_exact_dedup (order : List String → List String)
    (horder : strset.Enumerates order) (c : fileSource) (a b : String)
    (ha : a ∈ c.Digests) (hb : b ∈ c.Digests) (hne : a ≠ b) :
    a ∈ (c.PostLoad order).1.Digests ∧ b ∈ (c.PostLoad order).1.Digests ∧
      ((c.PostLoad order).1.Digests.filter (fun x => decide (x = a ∨ x = b))).length = 2 := by
  have hp := PostLoad_Digests_perm order horder c
  have hnd : (c.PostLoad order).1.Digests.Nodup := hp.nodup_iff.mpr (strset.nodup_New _)
  have ha2 : a ∈ (c.PostLoad order).1.Digests := by rw [hp.mem_iff, strset.mem_New]; exact ha
  have hb2 : b ∈ (c.PostLoad order).1.Digests := by rw [hp.mem_iff, strset.mem_New]; exact hb
  exact ⟨ha2, hb2, length_filter_pair_of_nodup _ a b hnd ha2 hb2 hne⟩

/-- Witness of C12 as amended, on two names that differ only in letter case. -/
theorem fileSource_PostLoad_exact_dedup_witness :
    foldCase "sha256" = foldCase "SHA256" ∧
      "sha256" ∈ (fileSource.PostLoad id
        { Digests := ["sha256", "SHA256", "sha256"] }).1.Digests ∧
      "SHA256" ∈ (fileSource.PostLoad id
        { Digests := ["sha256", "SHA256", "sha256"] }).1.Digests ∧
      ((fileSource.PostLoad id { Digests := ["sha256", "SHA256", "sha256"] }).1.Digests.filter
        (fun x => decide (x = "sha256" ∨ x = "SHA256"))).length = 2 :=
  ⟨by decide,
    fileSource_PostLoad_exact_dedup id (fun keys => List.Perm.refl keys)
      { Digests := ["sha256", "SHA256", "sha256"] } "sha256" "SHA256"
      (by decide) (by decide) (by decide)⟩

/-! ## Lemmas on `checkDefaultSourceValues` -/

theorem Join_validDefaultSourceValues :
    strings.Join validDefaultSourceValues ", " = "registry, docker, podman, " := by
  decide

theorem mem_validDefaultSourceValues (v : String) :
    v ∈ validDefaultSourceValues ↔ v = "" ∨ v = "registry" ∨ v = "docker" ∨ v = "podman" := by
  simp only [validDefaultSourceValues, List.mem_cons, List.not_mem_nil, or_false]
  tauto

theorem Has_validValues (v : String) :
    strset.Has (strset.New validDefaultSourceValues) v = true ↔
      v ∈ validDefaultSourceValues := by
  simp [strset.Has, strset.mem_New]

theorem checkDefaultSourceValues_of_mem (v : String) (p : Process)
    (h : v ∈ validDefaultSourceValues) : checkDefaultSourceValues v p = (none, p) := by
  have hh := (Has_validValues v).mpr h
  simp [checkDefaultSourceValues, hh]

theorem checkDefaultSourceValues_of_not_mem (v : String) (p : Process)
    (h : v ∉ validDefaultSourceValues) :
    checkDefaultSourceValues v p =
      (some (invalidDefaultSource v ++ "registry, docker, podman, " ++ "''"), p) := by
  have hh : ¬ strset.Has (strset.New validDefaultSourceValues) v = true :=
    fun hc => h ((Has_validValues v).mp hc)
  unfold checkDefaultSourceValues
  simp only [Join_validDefaultSourceValues, invalidDefaultSource]
  rw [if_pos hh]

/-! ## Default pull source: the claims -/

/-- C13: `checkDefaultSourceValues` returns no error exactly for the empty value,
`registry`, `docker` and `podman`, compared exactly, and it leaves the process
state as it found it. -/
theorem checkDefaultSourceValues_valid_iff (v : String) (p : Process) :
    ((checkDefaultSourceValues v p).1 = none ↔
        v = "" ∨ v = "registry" ∨ v = "docker" ∨ v = "podman") ∧
      (checkDefaultSourceValues v p).2 = p ∧
      (checkDefaultSourceValues "Docker" p).1 ≠ none ∧
      (checkDefaultSourceValues "foo" p).1 ≠ none := by
  have hD : (checkDefaultSourceValues "Docker" p).1 ≠ none := by
    rw [checkDefaultSourceValues_of_not_mem "Docker" p (by decide)]
    exact Option.some_ne_none _
  have hF : (checkDefaultSourceValues "foo" p).1 ≠ none := by
    rw [checkDefaultSourceValues_of_not_mem "foo" p (by decide)]
    exact Option.some_ne_none _
  by_cases h : v ∈ validDefaultSourceValues
  · rw [checkDefaultSourceValues_of_mem v p h]
    exact ⟨⟨fun _ => (mem_validDefaultSourceValues v).mp h, fun _ => rfl⟩, rfl, hD, hF⟩
  · rw [checkDefaultSourceValues_of_not_mem v p h]
    refine ⟨⟨fun hn => absurd hn (Option.some_ne_none _), ?_⟩, rfl, hD, hF⟩
    exact fun hv => absurd ((mem_validDefaultSourceValues v).mpr hv) h

set_option maxRecDepth 100000 in
/-- C14, counterexample: for `foo` the error text lists `registry, docker, podman`
and then the empty value; the four values joined in the order that starts with the
empty value, `, registry, docker, podman`, occur nowhere in the text. -/
theorem checkDefaultSourceValues_order_counterexample :
    (checkDefaultSourceValues "foo" { perFileReadLimit := 0 }).1 = some
        "foo is not a valid default source; please use one of the following: registry, docker, podman, ''" ∧
      strings.Join specDefaultSourceValues ", " = ", registry, docker, podman" ∧
      ¬ ((strings.Join specDefaultSourceValues ", ").data <:+:
        ("foo is not a valid default source; please use one of the following: registry, docker, podman, ''" : String).data) := by
  refine ⟨by decide, by decide, by decide⟩

/-- C14, amended: for a value outside the valid set the error text names the value
and lists the four valid values joined by `, ` in the order of
`validDefaultSourceValues`, that is `registry`, `docker`, `podman` and the empty
value last, closed by two apostrophes. -/
theorem checkDefaultSourceValues_message_order (v : String) (p : Process)
    (h : v ∉ specDefaultSourceValues) :
    (checkDefaultSourceValues v p).1 = some
      (v ++ " is not a valid default source; please use one of the following: " ++
        strings.Join ["registry", "docker", "podman", ""] ", " ++ "''") := by
  have hv : v ∉ validDefaultSourceValues := by
    intro hc
    apply h
    simp only [validDefaultSourceValues, specDefaultSourceValues, List.mem_cons,
      List.not_mem_nil, or_false] at hc ⊢
    tauto
  rw [checkDefaultSourceValues_of_not_mem v p hv]
  rfl

/-- Witness of C14 as amended, on the value `foo`. -/
theorem checkDefaultSourceValues_message_order_witness :
    (checkDefaultSourceValues "foo" { perFileReadLimit := 0 }).1 = some
      ("foo" ++ " is not a valid default source; please use one of the following: " ++
        strings.Join ["registry", "docker", "podman", ""] ", " ++ "''") :=
  checkDefaultSourceValues_message_order "foo" { perFileReadLimit := 0 } (by decide)

/-- C18: for a value outside the valid set the error text is the value, then
` is not a valid default source; please use one of the following: `, then
`registry`, `docker`, `podman` in that order joined by `, `, then the empty option
written as a further `, ` and two apostrophes. -/
theorem checkDefaultSourceValues_message (v : String) (p : Process)
    (h : ¬ (v = "" ∨ v = "registry" ∨ v = "docker" ∨ v = "podman")) :
    (checkDefaultSourceValues v p).1 = some
      (v ++ " is not a valid default source; please use one of the following: " ++
        strings.Join ["registry", "docker", "podman"] ", " ++ ", ''") := by
  have hv : v ∉ validDefaultSourceValues :=
    fun hc => h ((mem_validDefaultSourceValues v).mp hc)
  rw [checkDefaultSourceValues_of_not_mem v p hv]
  have hj : strings.Join ["registry", "docker", "podman"] ", " = "registry, docker, podman" := by
    decide
  have ht : "registry, docker, podman, " ++ "''" = "registry, docker, podman" ++ ", ''" := by
    decide
  simp only [invalidDefaultSource, hj, String.append_assoc, ht]

/-- Witness of C18 on the value `foo`, with the whole text. -/
theorem checkDefaultSourceValues_message_witness :
    (checkDefaultSourceValues "foo" { perFileReadLimit := 7 }).1 = some
        "foo is not a valid default source; please use one of the following: registry, docker, podman, ''" ∧
      (checkDefaultSourceValues "foo" { perFileReadLimit := 7 }).1 = some
        ("foo" ++ " is not a valid default source; please use one of the following: " ++
          strings.Join ["registry", "docker", "podman"] ", " ++ ", ''") :=
  ⟨by decide,
    checkDefaultSourceValues_message "foo" { perFileReadLimit := 7 } (by decide)⟩

/-! ## Lemmas on `imageSource.PostLoad` -/

theorem int64_of_lt (v : Nat) (h : v < 2 ^ 63) : int64 v = (v : Int) := by
  have hm : v % 2 ^ 64 = v := Nat.mod_eq_of_lt (by omega)
  unfold int64
  rw [hm, if_pos h]

theorem int64_of_ge (v : Nat) (h1 : 2 ^ 63 ≤ v) (h2 : v < 2 ^ 64) :
    int64 v = (v : Int) - 2 ^ 64 := by
  have hm : v % 2 ^ 64 = v := Nat.mod_eq_of_lt h2
  unfold int64
  rw [hm, if_neg (by omega)]

theorem imageSource_PostLoad_of_empty (ParseBytes : String → Nat × Option String)
    (c : imageSource) (p : Process) (h : c.MaxLayerSize = "") :
    c.PostLoad ParseBytes p = checkDefaultSourceValues c.DefaultPullSource p := by
  unfold imageSource.PostLoad
  rw [if_neg (not_not.mpr h)]

theorem imageSource_PostLoad_of_error (ParseBytes : String → Nat × Option String)
    (c : imageSource) (p : Process) (e : String) (hne : c.MaxLayerSize ≠ "")
    (herr : (ParseBytes c.MaxLayerSize).2 = some e) : c.PostLoad ParseBytes p = (some e, p) := by
  unfold imageSource.PostLoad
  rw [if_pos hne]
  rcases hp : ParseBytes c.MaxLayerSize with ⟨v, err⟩
  rw [hp] at herr
  simp only at herr
  subst herr
  rfl

theorem imageSource_PostLoad_of_ok (ParseBytes : String → Nat × Option String)
    (c : imageSource) (p : Process) (hne : c.MaxLayerSize ≠ "")
    (hok : (ParseBytes c.MaxLayerSize).2 = none) :
    c.PostLoad ParseBytes p = checkDefaultSourceValues c.DefaultPullSource
      (stereoscopeFile.SetPerFileReadLimit (int64 (ParseBytes c.MaxLayerSize).1) p) := by
  unfold imageSource.PostLoad
  rw [if_pos hne]
  rcases hp : ParseBytes c.MaxLayerSize with ⟨v, err⟩
  rw [hp] at hok
  simp only at hok
  subst hok
  rfl

theorem checkDefaultSourceValues_state (v : String) (p : Process) :
    (checkDefaultSourceValues v p).2 = p := by
  by_cases h : v ∈ validDefaultSourceValues
  · rw [checkDefaultSourceValues_of_mem v p h]
  · rw [checkDefaultSourceValues_of_not_mem v p h]

theorem checkDefaultSourceValues_error (v : String) (p q : Process) :
    (checkDefaultSourceValues v p).1 = (checkDefaultSourceValues v q).1 := by
  by_cases h : v ∈ validDefaultSourceValues
  · rw [checkDefaultSourceValues_of_mem v p h, checkDefaultSourceValues_of_mem v q h]
  · rw [checkDefaultSourceValues_of_not_mem v p h, checkDefaultSourceValues_of_not_mem v q h]

/-- The read limit after `imageSource.PostLoad`: it is written exactly when
`MaxLayerSize` is non-empty and accepted by the parser, with the parsed value
converted by `int64`, and the error is then the one of the pull source check. -/
theorem imageSource_PostLoad_limit (ParseBytes : String → Nat × Option String)
    (c : imageSource) (p : Process) :
    (c.MaxLayerSize ≠ "" ∧ (ParseBytes c.MaxLayerSize).2 = none →
        (c.PostLoad ParseBytes p).2.perFileReadLimit = int64 (ParseBytes c.MaxLayerSize).1 ∧
        (c.PostLoad ParseBytes p).1 = (checkDefaultSourceValues c.DefaultPullSource p).1) ∧
      (¬ (c.MaxLayerSize ≠ "" ∧ (ParseBytes c.MaxLayerSize).2 = none) →
        (c.PostLoad ParseBytes p).2 = p) := by
  constructor
  · rintro ⟨hne, hok⟩
    rw [imageSource_PostLoad_of_ok ParseBytes c p hne hok, checkDefaultSourceValues_state]
    exact ⟨rfl, checkDefaultSourceValues_error _ _ _⟩
  · intro h
    by_cases hne : c.MaxLayerSize = ""
    · rw [imageSource_PostLoad_of_empty ParseBytes c p hne, checkDefaultSourceValues_state]
    · cases herr : (ParseBytes c.MaxLayerSize).2 with
      | none => exact absurd ⟨hne, herr⟩ h
      | some e => rw [imageSource_PostLoad_of_error ParseBytes c p e hne herr]

/-- For a parsed value below 2^63 the read limit set by `imageSource.PostLoad` is
that value. -/
theorem imageSource_PostLoad_limit_small (ParseBytes : String → Nat × Option String)
    (c : imageSource) (p : Process) (hne : c.MaxLayerSize ≠ "")
    (hok : (ParseBytes c.MaxLayerSize).2 = none) (hv : (ParseBytes c.MaxLayerSize).1 < 2 ^ 63) :
    (c.PostLoad ParseBytes p).2.perFileReadLimit = ((ParseBytes c.MaxLayerSize).1 : Int) ∧
      0 ≤ (c.PostLoad ParseBytes p).2.perFileReadLimit := by
  have h := ((imageSource_PostLoad_limit ParseBytes c p).1 ⟨hne, hok⟩).1
  rw [h, int64_of_lt _ hv]
  exact ⟨rfl, Int.ofNat_nonneg _⟩

/-- For a parsed value from 2^63 on the read limit set by `imageSource.PostLoad` is
that value less 2^64, a negative number. -/
theorem imageSource_PostLoad_limit_large (ParseBytes : String → Nat × Option String)
    (c : imageSource) (p : Process) (hne : c.MaxLayerSize ≠ "")
    (hok : (ParseBytes c.MaxLayerSize).2 = none)
    (h1 : 2 ^ 63 ≤ (ParseBytes c.MaxLayerSize).1) (h2 : (ParseBytes c.MaxLayerSize).1 < 2 ^ 64) :
    (c.PostLoad ParseBytes p).2.perFileReadLimit =
        ((ParseBytes c.MaxLayerSize).1 : Int) - 2 ^ 64 ∧
      (c.PostLoad ParseBytes p).2.perFileReadLimit < 0 := by
  have h := ((imageSource_PostLoad_limit ParseBytes c p).1 ⟨hne, hok⟩).1
  rw [h, int64_of_ge _ h1 h2]
  refine ⟨rfl, ?_⟩
  have : ((ParseBytes c.MaxLayerSize).1 : Int) < 2 ^ 64 := by exact_mod_cast h2
  omega

/-! ## Image source: the claims -/

/-- C15, the code at the failing input: the size `10EB` is parsed to 10^19 bytes,
which is above 2^63, and `imageSource.PostLoad` returns no error and sets the read
limit to the negative number -8446744073709551616, which is 10^19 less 2^64. -/
theorem imageSource_PostLoad_overflow :
    sampleParseBytes "10EB" = (10000000000000000000, none) ∧
      imageSource.PostLoad sampleParseBytes { DefaultPullSource := "", MaxLayerSize := "10EB" }
        { perFileReadLimit := 0 } = (none, { perFileReadLimit := -8446744073709551616 }) ∧
      (imageSource.PostLoad sampleParseBytes { DefaultPullSource := "", MaxLayerSize := "10EB" }
        { perFileReadLimit := 0 }).2.perFileReadLimit < 0 ∧
      (imageSource.PostLoad sampleParseBytes { DefaultPullSource := "", MaxLayerSize := "10EB" }
        { perFileReadLimit := 0 }).2.perFileReadLimit ≠ ((sampleParseBytes "10EB").1 : Int) := by
  refine ⟨by decide, by decide, by decide, by decide⟩

/-- C16: when `MaxLayerSize` is non-empty and the parser rejects it with the error
`e`, `imageSource.PostLoad` returns `e` itself and leaves the process state, the
read limit included, as it was, whatever the default pull source is. -/
theorem imageSource_PostLoad_parse_error (ParseBytes : String → Nat × Option String)
    (size source : String) (p : Process) (e : String) (hne : size ≠ "")
    (herr : (ParseBytes size).2 = some e) :
    imageSource.PostLoad ParseBytes { DefaultPullSource := source, MaxLayerSize := size } p =
      (some e, p) :=
  imageSource_PostLoad_of_error ParseBytes { DefaultPullSource := source, MaxLayerSize := size }
    p e hne herr

/-- Witness of C16: a size with an unknown unit and an invalid pull source. -/
theorem imageSource_PostLoad_parse_error_witness :
    imageSource.PostLoad sampleParseBytes { DefaultPullSource := "foo", MaxLayerSize := "10XB" }
      { perFileReadLimit := 42 } =
      (some "unhandled size name: xb", { perFileReadLimit := 42 }) :=
  imageSource_PostLoad_parse_error sampleParseBytes "10XB" "foo" { perFileReadLimit := 42 }
    "unhandled size name: xb" (by decide) (by decide)

/-- C17: when `MaxLayerSize` is empty, `imageSource.PostLoad` does not depend on
the size parser, leaves the process state, the read limit included, as it was, and
returns the result of `checkDefaultSourceValues` on the default pull source: no
error exactly for the empty value, `registry`, `docker` and `podman`. -/
theorem imageSource_PostLoad_empty_size (ParseBytes : String → Nat × Option String)
    (c : imageSource) (p : Process) (h : c.MaxLayerSize = "") :
    (∀ ParseBytes2 : String → Nat × Option String,
        c.PostLoad ParseBytes2 p = c.PostLoad ParseBytes p) ∧
      c.PostLoad ParseBytes p = checkDefaultSourceValues c.DefaultPullSource p ∧
      (c.PostLoad ParseBytes p).2 = p ∧
      ((c.PostLoad ParseBytes p).1 = none ↔
        c.DefaultPullSource = "" ∨ c.DefaultPullSource = "registry" ∨
          c.DefaultPullSource = "docker" ∨ c.DefaultPullSource = "podman") := by
  have he := imageSource_PostLoad_of_empty ParseBytes c p h
  refine ⟨fun P2 => ?_, he, ?_, ?_⟩
  · rw [he, imageSource_PostLoad_of_empty P2 c p h]
  · rw [he, checkDefaultSourceValues_state]
  · rw [he]
    by_cases hv : c.DefaultPullSource ∈ validDefaultSourceValues
    · rw [checkDefaultSourceValues_of_mem _ p hv]
      exact ⟨fun _ => (mem_validDefaultSourceValues _).mp hv, fun _ => rfl⟩
    · rw [checkDefaultSourceValues_of_not_mem _ p hv]
      exact ⟨fun hn => absurd hn (Option.some_ne_none _),
        fun hc => absurd ((mem_validDefaultSourceValues _).mpr hc) hv⟩

/-- Witness of C17 with the pull source `docker` and a parser that rejects every
string. -/
theorem imageSource_PostLoad_empty_size_witness :
    imageSource.PostLoad (fun _ => (0, some "rejected"))
        { DefaultPullSource := "docker", MaxLayerSize := "" } { perFileReadLimit := 42 } =
      (none, { perFileReadLimit := 42 }) :=
  ((imageSource_PostLoad_empty_size (fun _ => (0, some "rejected"))
      { DefaultPullSource := "docker", MaxLayerSize := "" } { perFileReadLimit := 42 } rfl).2.1).trans
    (by decide)

/-- C19, the code at the failing input: with the size `10EB`, parsed to 10^19
bytes, and the invalid pull source `foo`, `imageSource.PostLoad` returns the error
of the pull source check and has set the read limit to -8446744073709551616, not to
the parsed value. -/
theorem imageSource_PostLoad_not_atomic_overflow :
    imageSource.PostLoad sampleParseBytes { DefaultPullSource := "foo", MaxLayerSize := "10EB" }
        { perFileReadLimit := 0 } =
      (some "foo is not a valid default source; please use one of the following: registry, docker, podman, ''",
        { perFileReadLimit := -8446744073709551616 }) ∧
      (imageSource.PostLoad sampleParseBytes
        { DefaultPullSource := "foo", MaxLayerSize := "10EB" }
        { perFileReadLimit := 0 }).2.perFileReadLimit ≠ ((sampleParseBytes "10EB").1 : Int) := by
  refine ⟨by decide, by decide⟩

/-! ## Order of the checks of `ParseAuthors` -/

/-- C20: the checks of `ParseAuthors` run in the order malformed format, invalid
type, empty name.  A string with a `:` whose first segment is not an allowed type
gives the invalid-type error, whatever its name segment is, and that error is not
the empty-name error; a string without `:` gives the malformed-format error. -/
theorem ParseAuthors_check_order (s : String) :
    (':' ∈ s.data → ¬ IsAuthorType ((strings.Split s ':').getD 0 "") →
        ParseAuthors [s] = ([], some ("invalid author type '" ++
          (strings.Split s ':').getD 0 "" ++ "', must be Person, Organization, or Tool")) ∧
        ParseAuthors [s] ≠ ([], some "author name cannot be empty")) ∧
      (':' ∉ s.data →
        ParseAuthors [s] = ([], some ("invalid author format '" ++ s ++
          "', expected 'type:name' or 'type:name:email'"))) := by
  constructor
  · intro hc ht
    have hlen : ¬ (strings.Split s ':').length < 2 :=
      fun hlt => (strings.length_Split_lt_two s ':').mp hlt hc
    have he : authorError s = some (invalidAuthorType ((strings.Split s ':').getD 0 "")) := by
      unfold authorError
      rw [if_neg hlen, if_pos ht]
    rw [ParseAuthors_singleton, he]
    refine ⟨rfl, ?_⟩
    intro hcon
    have hd := congrArg (fun r : List Author × Option String => (r.2.map String.data)) hcon
    simp [invalidAuthorType] at hd
  · intro hc
    have hlen : (strings.Split s ':').length < 2 := (strings.length_Split_lt_two s ':').mpr hc
    have he : authorError s = some (malformedAuthorFormat s) := by
      unfold authorError
      rw [if_pos hlen]
    rw [ParseAuthors_singleton, he]
    rfl

/-- Witness of C20 on `Robot:`, `:` and `Person`. -/
theorem ParseAuthors_check_order_witness :
    ParseAuthors ["Robot:"] =
        ([], some "invalid author type 'Robot', must be Person, Organization, or Tool") ∧
      ParseAuthors [":"] =
        ([], some "invalid author type '', must be Person, Organization, or Tool") ∧
      ParseAuthors ["Person"] =
        ([], some "invalid author format 'Person', expected 'type:name' or 'type:name:email'") :=
  ⟨((ParseAuthors_check_order "Robot:").1 (by decide) (by decide)).1,
    ((ParseAuthors_check_order ":").1 (by decide) (by decide)).1,
    (ParseAuthors_check_order "Person").2 (by decide)⟩

end Syft
